import Mathlib

/-!
Verification of the HyperPlonk argument-composition layer, a shallow embedding
of `local_hyperplonk` and `local_hyperplonkpp` from `hyperplonk.rs`.

The source file is a cost-simulation prover: it samples all tables and
challenges at random, derives the wire and label tables from the two
`(n+2)`-variable tables by fixing the leading boolean coordinates, runs the
gate-identity and wiring sum-check batches, and commits/opens every polynomial
through an external commitment collaborator.  The embedding makes the sampled
randomness an explicit input (`Randomness` / `RandomnessPP`), translates every
derived table from the source, records every collaborator call (commit, open,
sum-check) as an `Event` in source order, and models the sole failure point
(the pointwise division defining `h`) with `Except`.

The collaborator primitives (`fix_variable`, `acc_product`, the sum-check and
commitment engines) live in the `dist_primitive` crate, which is not part of
the sources; they are modelled from the specification where their behaviour
matters (variable fixing, accumulator shapes) and as argument-recording
artifacts where the specification declares them out of scope (sum-check
proofs, commitments, openings).
-/

namespace HyperPlonk

variable {F : Type} [Field F] [DecidableEq F]

/-- Modelled from the spec: one step of the external variable-fixing primitive
`fix` (crate `dist_primitive`, `mle::fix_variable`, not under `src/`).  Fixes
the leading boolean coordinate of a `k`-variable evaluation table to `r`: the
result is the multilinear interpolation between the leading-coordinate-0 half
and the leading-coordinate-1 half,
`t'[i] = t[i] + r * (t[len/2 + i] - t[i])`. -/
def fixOne (t : List F) (r : F) : List F :=
  (List.range (t.length / 2)).map
    (fun i => t.getD i 0 + r * (t.getD (t.length / 2 + i) 0 - t.getD i 0))

/-- Modelled from the spec: the external `fix(table, partial_point)` primitive,
fixing the leading coordinates one after another to the entries of `pt`
(spec section 6: returns a table of length `2 ^ (k - len(pt))`). -/
def fix_variable (t : List F) (pt : List F) : List F :=
  pt.foldl fixOne t

/-- Modelled from the spec: the internal table of the grand-product accumulator
(crate `dist_primitive`, `dacc_product::acc_product`, not under `src/`).
Starting from `h` (length `L`), one product entry is appended per step:
`v[L+i] = v[2i] * v[2i+1]`, realizing the recursive-halving product structure
the spec describes (spec sections 3 and 6). -/
def accV (h : List F) : List F :=
  (List.range h.length).foldl
    (fun v i => v ++ [v.getD (2 * i) 0 * v.getD (2 * i + 1) 0]) h

/-- Modelled from the spec: the accumulator returns the even-indexed entries of
the internal table (`vx0`), the odd-indexed entries (`vx1`), and the appended
"doubled index" products (`v1x`), each of the length of `h` (half the length
of the internal table), per spec section 3. -/
def acc_product (h : List F) : List F × List F × List F :=
  (((List.range h.length).map fun i => (accV h).getD (2 * i) 0),
   ((List.range h.length).map fun i => (accV h).getD (2 * i + 1) 0),
   (accV h).drop h.length)

/-- A sum-check-product proof artifact.  The sum-check engine is an external
collaborator declared out of scope (spec section 1), so the artifact records
the call `sumcheck_product(&p, &q, &challenge)`: the two evaluation tables and
the challenge point. -/
structure SumcheckProof (F : Type) where
  p : List F
  q : List F
  chal : List F
deriving DecidableEq

/-- A commitment artifact, recording the committed table
(`commitment.commit(&t)`); the commitment scheme itself is out of scope. -/
structure Commitment (F : Type) where
  table : List F
deriving DecidableEq

/-- An opening artifact, recording the table and the evaluation point
(`commitment.open(&t, &pt)`). -/
structure Opening (F : Type) where
  table : List F
  point : List F
deriving DecidableEq

/-- Mirrors `sumcheck_product(&p, &q, &challenge)` from the source. -/
def sumcheck_product (p q chal : List F) : SumcheckProof F := ⟨p, q, chal⟩

/-- The random tables and scalars a single invocation of `local_hyperplonk`
samples (source lines 19-49), made explicit as an input of the embedding.
`random_evaluations(k)` returns `k` uniform field elements, so length facts
about these fields appear as hypotheses in the theorems. -/
structure Randomness (F : Type) where
  m : List F
  input : List F
  q1 : List F
  q2 : List F
  ssigma : List F
  sid : List F
  eq : List F
  challenge : List F
  beta : F
  gamma : F
deriving DecidableEq

/-- The additional randomness of `local_hyperplonkpp` (source lines 196-201,
259): the auxiliary table `s` and the two `(n+2)`-length challenges. -/
structure RandomnessPP (F : Type) extends Randomness F where
  s : List F
  challengep2 : List F
  challengep2_2 : List F
deriving DecidableEq

/-- `a_evals` (source line 23). -/
def aT (r : Randomness F) : List F := fix_variable r.m [0, 0]

/-- `b_evals` (source line 24). -/
def bT (r : Randomness F) : List F := fix_variable r.m [0, 1]

/-- `c_evals` (source line 25). -/
def cT (r : Randomness F) : List F := fix_variable r.m [1, 0]

/-- `ssigma_a_evals` (source line 33). -/
def ssigmaA (r : Randomness F) : List F := fix_variable r.ssigma [0, 0]

/-- `ssigma_b_evals` (source line 34). -/
def ssigmaB (r : Randomness F) : List F := fix_variable r.ssigma [0, 1]

/-- `ssigma_c_evals` (source line 35). -/
def ssigmaC (r : Randomness F) : List F := fix_variable r.ssigma [1, 0]

/-- `sum_ab` (source lines 80-84): the pointwise sum `a + b`. -/
def sum_ab (r : Randomness F) : List F :=
  List.zipWith (fun a b => a + b) (aT r) (bT r)

/-- `sum_ci` (source lines 91-95): the pointwise value `-c + I`. -/
def sum_ci (r : Randomness F) : List F :=
  List.zipWith (fun a b => -a + b) (cT r) r.input

/-- `num` (source lines 106-112): for each `i < 2 ^ n` the blinded product
over the three wire/label pairs. -/
def numT (n : ℕ) (r : Randomness F) : List F :=
  (List.range (2 ^ n)).map fun i =>
    ((aT r).getD i 0 + r.beta * (ssigmaA r).getD i 0 + r.gamma)
      * ((bT r).getD i 0 + r.beta * (ssigmaB r).getD i 0 + r.gamma)
      * ((cT r).getD i 0 + r.beta * (ssigmaC r).getD i 0 + r.gamma)

/-- `den` (source lines 113-119): the identity-labelled blinded product. -/
def denT (n : ℕ) (r : Randomness F) : List F :=
  (List.range (2 ^ n)).map fun i =>
    ((aT r).getD i 0 + r.beta * r.sid.getD i 0 + r.gamma)
      * ((bT r).getD i 0 + r.beta * r.sid.getD i 0 + r.gamma)
      * ((cT r).getD i 0 + r.beta * r.sid.getD i 0 + r.gamma)

/-- `h` (source line 120) as a total table: the pointwise quotient
`num[i] / den[i]`.  The failure behaviour of the source's division is carried
separately by `hTableE` and the `Except`-valued orchestrations. -/
def hT (n : ℕ) (r : Randomness F) : List F :=
  List.zipWith (fun a b => a / b) (numT n r) (denT n r)

/-- `vx0` (source line 122). -/
def vx0T (n : ℕ) (r : Randomness F) : List F := (acc_product (hT n r)).1

/-- `vx1` (source line 122). -/
def vx1T (n : ℕ) (r : Randomness F) : List F := (acc_product (hT n r)).2.1

/-- `v1x` (source line 122). -/
def v1xT (n : ℕ) (r : Randomness F) : List F := (acc_product (hT n r)).2.2

/-- The error taxonomy of the embedding.  The arkworks field division
`*a / *b` on source line 120 inverts `b` and aborts the invocation when `b` is
the additive identity; that abort is the only failure point reachable in the
embedded fragment. -/
inductive Err where
  | divisionByZero
deriving DecidableEq

/-- The pointwise division building `h` (source line 120), with the abort made
explicit: pairs are divided left to right and the first zero denominator stops
the whole computation with `Err.divisionByZero`, exactly as the source's
iterator panics at the first zero.  Like `zip`, the traversal stops at the
shorter list. -/
def hTableE : List F → List F → Except Err (List F)
  | a :: num, b :: den =>
    if b = 0 then .error .divisionByZero
    else
      match hTableE num den with
      | .error e => .error e
      | .ok rest => .ok (a / b :: rest)
  | _, _ => .ok []

/-- The proof bundle returned by both orchestrations: the two groups
`(gate_identity_proofs, gate_identity_commitments)` and
`(wiring_proofs, wiring_commits, wiring_opens)` (source lines 162-165). -/
structure Bundle (F : Type) where
  gateProofs : List (SumcheckProof F)
  gateCommitments : List (Commitment F × Opening F)
  wiringProofs : List (SumcheckProof F)
  wiringCommits : List (Commitment F)
  wiringOpens : List (Opening F)
deriving DecidableEq

/-- One collaborator call of an invocation: a commitment, an opening, or a
sum-check instance.  The trace of an invocation lists these in the order the
source performs them. -/
inductive Event (F : Type) where
  | commit (t : List F)
  | openAt (t : List F) (pt : List F)
  | sumcheck (p q : List F) (chal : List F)
deriving DecidableEq

/-- The nine gate-identity-scope polynomials, in the order the source commits
them (lines 56-66) and opens them (lines 148-156). -/
def gatePolys (r : Randomness F) : List (List F) :=
  [aT r, bT r, cT r, r.input, r.q1, r.q2, ssigmaA r, ssigmaB r, ssigmaC r]

/-- The six wiring-scope polynomials, in the order the source commits and
opens them (lines 125-136). -/
def wiringPolys (n : ℕ) (r : Randomness F) : List (List F) :=
  [hT n r, numT n r, denT n r, vx0T n r, vx1T n r, v1xT n r]

/-- The six gate-identity sum-check instances in source order
(lines 79-96). -/
def gateProofList (n : ℕ) (r : Randomness F) : List (SumcheckProof F) :=
  [sumcheck_product r.eq r.q1 r.challenge,
   sumcheck_product r.q1 (sum_ab r) r.challenge,
   sumcheck_product r.eq r.q2 r.challenge,
   sumcheck_product (aT r) (bT r) r.challenge,
   sumcheck_product r.q2 (aT r) r.challenge,
   sumcheck_product r.eq (sum_ci r) r.challenge]

/-- The six wiring sum-check instances in source order (lines 138-143). -/
def wiringProofList (n : ℕ) (r : Randomness F) : List (SumcheckProof F) :=
  [sumcheck_product r.eq (v1xT n r) r.challenge,
   sumcheck_product r.eq (vx0T n r) r.challenge,
   sumcheck_product (vx0T n r) (vx1T n r) r.challenge,
   sumcheck_product r.eq (denT n r) r.challenge,
   sumcheck_product r.eq (numT n r) r.challenge,
   sumcheck_product (hT n r) (numT n r) r.challenge]

/-- The commit events of source lines 56-66. -/
def gateCommitEvents (r : Randomness F) : List (Event F) :=
  (gatePolys r).map Event.commit

/-- The open events of source lines 148-156. -/
def gateOpenEvents (r : Randomness F) : List (Event F) :=
  (gatePolys r).map fun t => Event.openAt t r.challenge

/-- The sum-check events corresponding to a list of instances. -/
def scEvents (l : List (SumcheckProof F)) : List (Event F) :=
  l.map fun pr => Event.sumcheck pr.p pr.q pr.chal

/-- The interleaved commit/open calls of the wiring component
(source lines 125-136), in source order. -/
def wiringCoEvents (n : ℕ) (r : Randomness F) : List (Event F) :=
  [.commit (hT n r), .openAt (hT n r) r.challenge,
   .commit (numT n r), .openAt (numT n r) r.challenge,
   .commit (denT n r), .openAt (denT n r) r.challenge,
   .commit (vx0T n r), .openAt (vx0T n r) r.challenge,
   .commit (vx1T n r), .openAt (vx1T n r) r.challenge,
   .commit (v1xT n r), .openAt (v1xT n r) r.challenge]

/-- The proof bundle of `local_hyperplonk` on a successful invocation,
assembled exactly as the source pushes its vectors. -/
def bundleOf (n : ℕ) (r : Randomness F) : Bundle F where
  gateProofs := gateProofList n r
  gateCommitments := (gatePolys r).map fun t => (⟨t⟩, ⟨t, r.challenge⟩)
  wiringProofs := wiringProofList n r
  wiringCommits := (wiringPolys n r).map fun t => ⟨t⟩
  wiringOpens := (wiringPolys n r).map fun t => ⟨t, r.challenge⟩

/-- The collaborator-call trace of `local_hyperplonk`, in source order:
nine commits, six gate sum-checks, the interleaved wiring commit/open block,
six wiring sum-checks, nine gate opens. -/
def traceOf (n : ℕ) (r : Randomness F) : List (Event F) :=
  gateCommitEvents r
    ++ scEvents (gateProofList n r)
    ++ wiringCoEvents n r
    ++ scEvents (wiringProofList n r)
    ++ gateOpenEvents r

/-- `local_hyperplonk` (source lines 15-166).  The pointwise division building
`h` (line 120) is the sole failure point of the embedded fragment; on success
the invocation returns the bundle together with its collaborator-call
trace. -/
def localHyperplonk (n : ℕ) (r : Randomness F) :
    Except Err (Bundle F × List (Event F)) :=
  match hTableE (numT n r) (denT n r) with
  | .error e => .error e
  | .ok _ => .ok (bundleOf n r, traceOf n r)

/-- The extra collaborator calls of the plus variant (source lines 259-264):
commit `s`, run the `(M, s)` sum-check at the `(n+2)`-length challenge, open
`s` at that challenge and `M` at both `(n+2)`-length challenges. -/
def sBlock (r : RandomnessPP F) : List (Event F) :=
  [.commit r.s,
   .sumcheck r.m r.s r.challengep2,
   .openAt r.s r.challengep2,
   .openAt r.m r.challengep2,
   .openAt r.m r.challengep2_2]

/-- The proof bundle of `local_hyperplonkpp` on a successful invocation
(source lines 168-327): as the baseline bundle, with the `(M, s)` proof, the
commitment to `s`, and the three extra opens prepended to the wiring group. -/
def bundleOfPP (n : ℕ) (r : RandomnessPP F) : Bundle F where
  gateProofs := gateProofList n r.toRandomness
  gateCommitments := (gatePolys r.toRandomness).map fun t => (⟨t⟩, ⟨t, r.challenge⟩)
  wiringProofs := sumcheck_product r.m r.s r.challengep2 :: wiringProofList n r.toRandomness
  wiringCommits := ⟨r.s⟩ :: (wiringPolys n r.toRandomness).map fun t => ⟨t⟩
  wiringOpens :=
    [⟨r.s, r.challengep2⟩, ⟨r.m, r.challengep2⟩, ⟨r.m, r.challengep2_2⟩]
      ++ (wiringPolys n r.toRandomness).map fun t => ⟨t, r.challenge⟩

/-- The collaborator-call trace of `local_hyperplonkpp`: identical to the
baseline trace except for the `sBlock` inserted between the gate sum-checks
and the wiring commit/open block (source lines 259-264). -/
def traceOfPP (n : ℕ) (r : RandomnessPP F) : List (Event F) :=
  gateCommitEvents r.toRandomness
    ++ scEvents (gateProofList n r.toRandomness)
    ++ sBlock r
    ++ wiringCoEvents n r.toRandomness
    ++ scEvents (wiringProofList n r.toRandomness)
    ++ gateOpenEvents r.toRandomness

/-- `local_hyperplonkpp` (source lines 168-327). -/
def localHyperplonkpp (n : ℕ) (r : RandomnessPP F) :
    Except Err (Bundle F × List (Event F)) :=
  match hTableE (numT n r.toRandomness) (denT n r.toRandomness) with
  | .error e => .error e
  | .ok _ => .ok (bundleOfPP n r, traceOfPP n r)

/-- The tables committed during an invocation, in call order. -/
def committedTables (tr : List (Event F)) : List (List F) :=
  tr.filterMap fun e => match e with
    | .commit t => some t
    | _ => none

/-- The (table, point) pairs of the open calls of an invocation, in call
order. -/
def openEvents (tr : List (Event F)) : List (List F × List F) :=
  tr.filterMap fun e => match e with
    | .openAt t pt => some (t, pt)
    | _ => none

/-- The points at which a given table is opened during an invocation, in call
order. -/
def openPointsOf (t : List F) (tr : List (Event F)) : List (List F) :=
  (openEvents tr).filterMap fun pr => if pr.1 = t then some pr.2 else none

/-! Helper lemmas about the table primitives. -/

theorem rangeMap_getD {α : Type} (f : ℕ → α) (n i : ℕ) (d : α) (hi : i < n) :
    ((List.range n).map f).getD i d = f i := by
  rw [List.getD_eq_getElem?_getD]
  simp [List.getElem?_range, hi]

theorem zipWith_getD (f : F → F → F) :
    ∀ (xs ys : List F) (i : ℕ), i < xs.length → i < ys.length →
      (List.zipWith f xs ys).getD i 0 = f (xs.getD i 0) (ys.getD i 0)
  | _ :: _, _ :: _, 0, _, _ => rfl
  | _ :: xs, _ :: ys, i + 1, h1, h2 => by
      simpa using zipWith_getD f xs ys i (by simpa using h1) (by simpa using h2)
  | [], _, _, h1, _ => absurd h1 (by simp)
  | _ :: _, [], _, _, h2 => absurd h2 (by simp)

theorem fixOne_length (t : List F) (r : F) : (fixOne t r).length = t.length / 2 := by
  simp [fixOne]

theorem fixOne_getD (t : List F) (r : F) (k i : ℕ) (hk : t.length = 2 * k)
    (hi : i < k) :
    (fixOne t r).getD i 0 = t.getD i 0 + r * (t.getD (k + i) 0 - t.getD i 0) := by
  have h2 : t.length / 2 = k := by omega
  unfold fixOne
  rw [h2]
  exact rangeMap_getD _ _ _ _ hi

theorem fixOne_getD_zero (t : List F) (k i : ℕ) (hk : t.length = 2 * k)
    (hi : i < k) : (fixOne t 0).getD i 0 = t.getD i 0 := by
  rw [fixOne_getD t 0 k i hk hi]; ring

theorem fixOne_getD_one (t : List F) (k i : ℕ) (hk : t.length = 2 * k)
    (hi : i < k) : (fixOne t 1).getD i 0 = t.getD (k + i) 0 := by
  rw [fixOne_getD t 1 k i hk hi]; ring

theorem foldlAppend_length (g : List F → ℕ → F) :
    ∀ (l : List ℕ) (v : List F),
      (l.foldl (fun v i => v ++ [g v i]) v).length = v.length + l.length
  | [], v => by simp
  | i :: l, v => by
      rw [List.foldl_cons, foldlAppend_length g l]
      simp
      omega

theorem accV_length (h : List F) : (accV h).length = 2 * h.length := by
  unfold accV
  rw [foldlAppend_length]
  simp
  omega

theorem hTableE_ok (num den : List F) (hz : ∀ x ∈ den, x ≠ 0) :
    hTableE num den = .ok (List.zipWith (fun a b => a / b) num den) := by
  induction num generalizing den with
  | nil => cases den <;> simp [hTableE]
  | cons a num ih =>
    cases den with
    | nil => simp [hTableE]
    | cons b den =>
      have hb : b ≠ 0 := hz b (by simp)
      have hrec := ih den (fun x hx => hz x (by simp [hx]))
      simp [hTableE, hb, hrec]

theorem hTableE_error_iff (num den : List F) (hlen : num.length = den.length) :
    hTableE num den = .error Err.divisionByZero ↔ ∃ x ∈ den, x = 0 := by
  induction num generalizing den with
  | nil =>
    cases den with
    | nil => simp [hTableE]
    | cons b den => simp at hlen
  | cons a num ih =>
    cases den with
    | nil => simp at hlen
    | cons b den =>
      have hlen' : num.length = den.length := by simpa using hlen
      by_cases hb : b = 0
      · simp [hTableE, hb]
      · rcases hcase : hTableE num den with e | l
        · cases e
          have hz : ∃ x ∈ den, x = 0 := (ih den hlen').mp hcase
          simp only [hTableE, if_neg hb, hcase]
          simpa [hb] using Or.inr hz
        · constructor
          · intro h
            simp [hTableE, hb, hcase] at h
          · rintro ⟨x, hx, rfl⟩
            rcases List.mem_cons.mp hx with h | h
            · exact absurd h.symm hb
            · exact absurd ((ih den hlen').mpr ⟨0, h, rfl⟩) (by simp [hcase])

theorem numT_length (n : ℕ) (r : Randomness F) : (numT n r).length = 2 ^ n := by
  simp [numT]

theorem denT_length (n : ℕ) (r : Randomness F) : (denT n r).length = 2 ^ n := by
  simp [denT]

theorem hT_length (n : ℕ) (r : Randomness F) : (hT n r).length = 2 ^ n := by
  simp [hT, numT, denT]

theorem vx0T_length (n : ℕ) (r : Randomness F) : (vx0T n r).length = 2 ^ n := by
  simp [vx0T, acc_product, hT_length]

theorem vx1T_length (n : ℕ) (r : Randomness F) : (vx1T n r).length = 2 ^ n := by
  simp [vx1T, acc_product, hT_length]

theorem v1xT_length (n : ℕ) (r : Randomness F) : (v1xT n r).length = 2 ^ n := by
  simp only [v1xT, acc_product, List.length_drop, accV_length, hT_length]
  omega

/-! Concrete instantiations over the field `ZMod 11`, used to evaluate the
theorems at explicit inputs. -/

instance : Fact (Nat.Prime 11) := ⟨by norm_num⟩

/-- A concrete, well-formed randomness assignment for `n = 1` over `ZMod 11`:
all tables have the sampled lengths, every `den` entry is nonzero, and the
sixteen committed tables are pairwise distinct. -/
def wRpp : RandomnessPP (ZMod 11) where
  m := [1, 2, 3, 4, 5, 6, 7, 8]
  input := [7, 9]
  q1 := [8, 5]
  q2 := [9, 3]
  ssigma := [2, 9, 4, 8, 6, 10, 3, 7]
  sid := [10, 4]
  eq := [4, 7]
  challenge := [6]
  beta := 2
  gamma := 3
  s := [1, 1, 2, 2, 3, 3, 4, 4]
  challengep2 := [1, 2, 3]
  challengep2_2 := [4, 5, 6]

/-- The baseline part of `wRpp`. -/
def wR : Randomness (ZMod 11) := wRpp.toRandomness

/-- A degenerate randomness assignment (all blinding scalars and tables zero)
that drives every `den` entry to the additive identity. -/
def wRbadpp : RandomnessPP (ZMod 11) where
  m := [0, 0, 0, 0, 0, 0, 0, 0]
  input := [0, 0]
  q1 := [0, 0]
  q2 := [0, 0]
  ssigma := [0, 0, 0, 0, 0, 0, 0, 0]
  sid := [0, 0]
  eq := [0, 0]
  challenge := [0]
  beta := 0
  gamma := 0
  s := [0, 0, 0, 0, 0, 0, 0, 0]
  challengep2 := [0, 0, 0]
  challengep2_2 := [0, 0, 0]

/-- The baseline part of `wRbadpp`. -/
def wRbad : Randomness (ZMod 11) := wRbadpp.toRandomness

theorem fix2_length (t : List F) (x y : F) :
    (fix_variable t [x, y]).length = t.length / 2 / 2 := by
  show (fixOne (fixOne t x) y).length = t.length / 2 / 2
  rw [fixOne_length, fixOne_length]

/-- C6: the wire tables `a, b, c` (and likewise the label tables) are derived
from the length-`4 * 2 ^ n` witness table by fixing the two leading boolean
coordinates to `(0,0)`, `(0,1)`, `(1,0)`, and this fixing realizes the exact
index mapping `fix(M,(0,0))[i] = M[i]`, `fix(M,(0,1))[i] = M[2^n + i]`,
`fix(M,(1,0))[i] = M[2*2^n + i]` for all `i < 2 ^ n`. -/
theorem c6_arithmetization_mapping (n : ℕ) (r : Randomness F)
    (hm : r.m.length = 4 * 2 ^ n) (i : ℕ) (hi : i < 2 ^ n) :
    (aT r).getD i 0 = r.m.getD i 0
  ∧ (bT r).getD i 0 = r.m.getD (2 ^ n + i) 0
  ∧ (cT r).getD i 0 = r.m.getD (2 * 2 ^ n + i) 0 := by
  have hm2 : r.m.length = 2 * (2 * 2 ^ n) := by omega
  have hlen0 : (fixOne r.m (0 : F)).length = 2 * 2 ^ n := by
    rw [fixOne_length, hm]; omega
  have hlen1 : (fixOne r.m (1 : F)).length = 2 * 2 ^ n := by
    rw [fixOne_length, hm]; omega
  have hA : ∀ j, j < 2 * 2 ^ n →
      (fixOne r.m (0 : F)).getD j 0 = r.m.getD j 0 :=
    fun j hj => fixOne_getD_zero r.m (2 * 2 ^ n) j hm2 hj
  have hB : ∀ j, j < 2 * 2 ^ n →
      (fixOne r.m (1 : F)).getD j 0 = r.m.getD (2 * 2 ^ n + j) 0 :=
    fun j hj => fixOne_getD_one r.m (2 * 2 ^ n) j hm2 hj
  refine ⟨?_, ?_, ?_⟩
  · show (fixOne (fixOne r.m 0) 0).getD i 0 = r.m.getD i 0
    rw [fixOne_getD_zero (fixOne r.m 0) (2 ^ n) i hlen0 hi]
    exact hA i (by omega)
  · show (fixOne (fixOne r.m 0) 1).getD i 0 = r.m.getD (2 ^ n + i) 0
    rw [fixOne_getD_one (fixOne r.m 0) (2 ^ n) i hlen0 hi]
    exact hA (2 ^ n + i) (by omega)
  · show (fixOne (fixOne r.m 1) 0).getD i 0 = r.m.getD (2 * 2 ^ n + i) 0
    rw [fixOne_getD_zero (fixOne r.m 1) (2 ^ n) i hlen1 hi]
    exact hB i (by omega)

/-- C6 witness: the index mapping evaluated at the concrete input `wR`,
`n = 1`, `i = 1`. -/
theorem c6_witness :
    wR.m.length = 4 * 2 ^ 1
  ∧ (aT wR).getD 1 0 = wR.m.getD 1 0
  ∧ (bT wR).getD 1 0 = wR.m.getD (2 ^ 1 + 1) 0
  ∧ (cT wR).getD 1 0 = wR.m.getD (2 * 2 ^ 1 + 1) 0 :=
  ⟨by decide, c6_arithmetization_mapping 1 wR (by decide) 1 (by decide)⟩

/-- C3: for every `i < 2 ^ n`, the wiring tables satisfy
`num[i] = (a[i] + beta*ssigma_a[i] + gamma) * (b[i] + beta*ssigma_b[i] + gamma)
* (c[i] + beta*ssigma_c[i] + gamma)`,
`den[i] = (a[i] + beta*sid[i] + gamma) * (b[i] + beta*sid[i] + gamma)
* (c[i] + beta*sid[i] + gamma)`, and `h[i] = num[i] / den[i]` pointwise; these
are exactly the first three tables of the wiring commitment sequence in both
variants. -/
theorem c3_rational_identity (n : ℕ) (rp : RandomnessPP F) (i : ℕ)
    (hi : i < 2 ^ n) :
    (numT n rp.toRandomness).getD i 0 =
        ((aT rp.toRandomness).getD i 0
            + rp.beta * (ssigmaA rp.toRandomness).getD i 0 + rp.gamma)
      * ((bT rp.toRandomness).getD i 0
            + rp.beta * (ssigmaB rp.toRandomness).getD i 0 + rp.gamma)
      * ((cT rp.toRandomness).getD i 0
            + rp.beta * (ssigmaC rp.toRandomness).getD i 0 + rp.gamma)
  ∧ (denT n rp.toRandomness).getD i 0 =
        ((aT rp.toRandomness).getD i 0 + rp.beta * rp.sid.getD i 0 + rp.gamma)
      * ((bT rp.toRandomness).getD i 0 + rp.beta * rp.sid.getD i 0 + rp.gamma)
      * ((cT rp.toRandomness).getD i 0 + rp.beta * rp.sid.getD i 0 + rp.gamma)
  ∧ (hT n rp.toRandomness).getD i 0 =
      (numT n rp.toRandomness).getD i 0 / (denT n rp.toRandomness).getD i 0
  ∧ (bundleOf n rp.toRandomness).wiringCommits.take 3 =
      [⟨hT n rp.toRandomness⟩, ⟨numT n rp.toRandomness⟩, ⟨denT n rp.toRandomness⟩]
  ∧ ((bundleOfPP n rp).wiringCommits.drop 1).take 3 =
      [⟨hT n rp.toRandomness⟩, ⟨numT n rp.toRandomness⟩, ⟨denT n rp.toRandomness⟩] := by
  refine ⟨rangeMap_getD _ _ _ _ hi, rangeMap_getD _ _ _ _ hi, ?_, rfl, rfl⟩
  exact zipWith_getD _ _ _ _ (by rw [numT_length]; exact hi)
    (by rw [denT_length]; exact hi)

/-- C3 witness: the rational-identity tables evaluated at the concrete input
`wRpp`, `n = 1`, `i = 0`. -/
theorem c3_witness :
    (0 < 2 ^ 1)
  ∧ (hT 1 wRpp.toRandomness).getD 0 0 =
      (numT 1 wRpp.toRandomness).getD 0 0 / (denT 1 wRpp.toRandomness).getD 0 0 :=
  ⟨by decide, (c3_rational_identity 1 wRpp 0 (by decide)).2.2.1⟩

/-- C7: if some `den[i]` is the additive identity, the invocation fails with a
division-by-zero error and returns no proof bundle; if every `den[i]` is
nonzero, the pointwise division is well-defined and the invocation succeeds,
in both variants. -/
theorem c7_division_by_zero (n : ℕ) (rp : RandomnessPP F) :
    (localHyperplonk n rp.toRandomness = .error .divisionByZero
        ↔ ∃ x ∈ denT n rp.toRandomness, x = 0)
  ∧ ((∀ x ∈ denT n rp.toRandomness, x ≠ 0) →
        localHyperplonk n rp.toRandomness
          = .ok (bundleOf n rp.toRandomness, traceOf n rp.toRandomness))
  ∧ (localHyperplonkpp n rp = .error .divisionByZero
        ↔ ∃ x ∈ denT n rp.toRandomness, x = 0)
  ∧ ((∀ x ∈ denT n rp.toRandomness, x ≠ 0) →
        localHyperplonkpp n rp = .ok (bundleOfPP n rp, traceOfPP n rp)) := by
  have hlen : (numT n rp.toRandomness).length = (denT n rp.toRandomness).length := by
    rw [numT_length, denT_length]
  refine ⟨⟨?_, ?_⟩, ?_, ⟨?_, ?_⟩, ?_⟩
  · intro h
    by_contra hno
    push_neg at hno
    unfold localHyperplonk at h
    rw [hTableE_ok _ _ hno] at h
    simp at h
  · intro hz
    unfold localHyperplonk
    rw [(hTableE_error_iff _ _ hlen).mpr hz]
  · intro hno
    unfold localHyperplonk
    rw [hTableE_ok _ _ hno]
  · intro h
    by_contra hno
    push_neg at hno
    unfold localHyperplonkpp at h
    rw [hTableE_ok _ _ hno] at h
    simp at h
  · intro hz
    unfold localHyperplonkpp
    rw [(hTableE_error_iff _ _ hlen).mpr hz]
  · intro hno
    unfold localHyperplonkpp
    rw [hTableE_ok _ _ hno]

/-- C7 witness: the degenerate input `wRbadpp` (a zero denominator) aborts
both variants with the division-by-zero error, and the well-formed input
`wRpp` (all denominators nonzero) succeeds in both variants. -/
theorem c7_witness :
    localHyperplonk 1 wRbad = .error .divisionByZero
  ∧ localHyperplonkpp 1 wRbadpp = .error .divisionByZero
  ∧ localHyperplonk 1 wR = .ok (bundleOf 1 wR, traceOf 1 wR)
  ∧ localHyperplonkpp 1 wRpp = .ok (bundleOfPP 1 wRpp, traceOfPP 1 wRpp) :=
  ⟨(c7_division_by_zero 1 wRbadpp).1.mpr (by decide),
   (c7_division_by_zero 1 wRbadpp).2.2.1.mpr (by decide),
   (c7_division_by_zero 1 wRpp).2.1 (by decide),
   (c7_division_by_zero 1 wRpp).2.2.2 (by decide)⟩

set_option maxHeartbeats 1000000 in
/-- C8: for all `n ≥ 1`, every evaluation table produced during one invocation
of either variant has length exactly `2 ^ n` (the wire, selector, input,
identity-label, permutation-label, `eq`, `sum_ab`, `sum_ci`, `num`, `den`,
`h`, and accumulator tables) or exactly `2 ^ (n + 2)` (the witness table `M`,
`ssigma`, and the plus-variant table `s`).  The accumulator-output and
variable-fixing lengths rest on the spec-modelled `acc_product` and
`fix_variable`. -/
theorem c8_dimension_invariant (n : ℕ) (rp : RandomnessPP F)
    (hm : rp.m.length = 4 * 2 ^ n) (hssigma : rp.ssigma.length = 4 * 2 ^ n)
    (hs : rp.s.length = 4 * 2 ^ n) (hin : rp.input.length = 2 ^ n)
    (hq1 : rp.q1.length = 2 ^ n) (hq2 : rp.q2.length = 2 ^ n)
    (hsid : rp.sid.length = 2 ^ n) (heq : rp.eq.length = 2 ^ n) :
    (aT rp.toRandomness).length = 2 ^ n
  ∧ (bT rp.toRandomness).length = 2 ^ n
  ∧ (cT rp.toRandomness).length = 2 ^ n
  ∧ (ssigmaA rp.toRandomness).length = 2 ^ n
  ∧ (ssigmaB rp.toRandomness).length = 2 ^ n
  ∧ (ssigmaC rp.toRandomness).length = 2 ^ n
  ∧ (sum_ab rp.toRandomness).length = 2 ^ n
  ∧ (sum_ci rp.toRandomness).length = 2 ^ n
  ∧ (numT n rp.toRandomness).length = 2 ^ n
  ∧ (denT n rp.toRandomness).length = 2 ^ n
  ∧ (hT n rp.toRandomness).length = 2 ^ n
  ∧ (vx0T n rp.toRandomness).length = 2 ^ n
  ∧ (vx1T n rp.toRandomness).length = 2 ^ n
  ∧ (v1xT n rp.toRandomness).length = 2 ^ n
  ∧ rp.input.length = 2 ^ n ∧ rp.q1.length = 2 ^ n ∧ rp.q2.length = 2 ^ n
  ∧ rp.sid.length = 2 ^ n ∧ rp.eq.length = 2 ^ n
  ∧ rp.m.length = 2 ^ (n + 2) ∧ rp.ssigma.length = 2 ^ (n + 2)
  ∧ rp.s.length = 2 ^ (n + 2) := by
  have hpow : 2 ^ (n + 2) = 4 * 2 ^ n := by rw [pow_succ, pow_succ]; ring
  have ha : (aT rp.toRandomness).length = 2 ^ n := by
    rw [aT, fix2_length, hm]; omega
  have hb : (bT rp.toRandomness).length = 2 ^ n := by
    rw [bT, fix2_length, hm]; omega
  have hc : (cT rp.toRandomness).length = 2 ^ n := by
    rw [cT, fix2_length, hm]; omega
  have hsa : (ssigmaA rp.toRandomness).length = 2 ^ n := by
    rw [ssigmaA, fix2_length, hssigma]; omega
  have hsb : (ssigmaB rp.toRandomness).length = 2 ^ n := by
    rw [ssigmaB, fix2_length, hssigma]; omega
  have hsc : (ssigmaC rp.toRandomness).length = 2 ^ n := by
    rw [ssigmaC, fix2_length, hssigma]; omega
  refine ⟨ha, hb, hc, hsa, hsb, hsc, ?_, ?_, numT_length n _, denT_length n _,
    hT_length n _, vx0T_length n _, vx1T_length n _, v1xT_length n _,
    hin, hq1, hq2, hsid, heq, ?_, ?_, ?_⟩
  · rw [sum_ab, List.length_zipWith, ha, hb]; omega
  · rw [sum_ci, List.length_zipWith, hc, hin]; omega
  · rw [hpow]; exact hm
  · rw [hpow]; exact hssigma
  · rw [hpow]; exact hs

set_option maxHeartbeats 1000000 in
/-- C8 witness: the dimension invariant evaluated at the concrete input
`wRpp`, `n = 1`. -/
theorem c8_witness :
    wRpp.m.length = 4 * 2 ^ 1
  ∧ (hT 1 wRpp.toRandomness).length = 2 ^ 1
  ∧ (v1xT 1 wRpp.toRandomness).length = 2 ^ 1
  ∧ wRpp.s.length = 2 ^ (1 + 2) :=
  ⟨by decide,
   (c8_dimension_invariant 1 wRpp (by decide) (by decide) (by decide) (by decide)
      (by decide) (by decide) (by decide) (by decide)).2.2.2.2.2.2.2.2.2.2.1,
   (c8_dimension_invariant 1 wRpp (by decide) (by decide) (by decide) (by decide)
      (by decide) (by decide) (by decide) (by decide)).2.2.2.2.2.2.2.2.2.2.2.2.2.1,
   (c8_dimension_invariant 1 wRpp (by decide) (by decide) (by decide) (by decide)
      (by decide) (by decide) (by decide) (by decide)).2.2.2.2.2.2.2.2.2.2.2.2.2.2.2.2.2.2.2.2.2⟩


/-- C1: for every `n`, the baseline invocation returns a gate-identity proof
list of length 6, a gate-identity commitment+opening list of length 9, a
wiring proof list of length 6, a wiring commitment list of length 6, and a
wiring opening list of length 6, independent of circuit content; it commits
exactly the 15 polynomials (9 gate-identity-scope, then 6 wiring-scope), each
once, and the plus variant commits the same 15 plus exactly the one extra
table `s`; whenever those tables are pairwise distinct (as they are for
generically sampled randomness), no polynomial is committed twice. -/
theorem c1_commit_open_counts (n : ℕ) (rp : RandomnessPP F)
    (hnd : (gatePolys rp.toRandomness ++ [rp.s] ++ wiringPolys n rp.toRandomness).Nodup) :
    (bundleOf n rp.toRandomness).gateProofs.length = 6
  ∧ (bundleOf n rp.toRandomness).gateCommitments.length = 9
  ∧ (bundleOf n rp.toRandomness).wiringProofs.length = 6
  ∧ (bundleOf n rp.toRandomness).wiringCommits.length = 6
  ∧ (bundleOf n rp.toRandomness).wiringOpens.length = 6
  ∧ committedTables (traceOf n rp.toRandomness)
      = gatePolys rp.toRandomness ++ wiringPolys n rp.toRandomness
  ∧ committedTables (traceOfPP n rp)
      = gatePolys rp.toRandomness ++ [rp.s] ++ wiringPolys n rp.toRandomness
  ∧ (committedTables (traceOf n rp.toRandomness)).length = 15
  ∧ (committedTables (traceOfPP n rp)).length = 16
  ∧ (committedTables (traceOf n rp.toRandomness)).Nodup
  ∧ (committedTables (traceOfPP n rp)).Nodup := by
  have hbase : committedTables (traceOf n rp.toRandomness)
      = gatePolys rp.toRandomness ++ wiringPolys n rp.toRandomness := rfl
  have hpp : committedTables (traceOfPP n rp)
      = gatePolys rp.toRandomness ++ [rp.s] ++ wiringPolys n rp.toRandomness := rfl
  have hsub : (gatePolys rp.toRandomness ++ wiringPolys n rp.toRandomness).Sublist
      (gatePolys rp.toRandomness ++ [rp.s] ++ wiringPolys n rp.toRandomness) :=
    (List.sublist_append_left (gatePolys rp.toRandomness) [rp.s]).append
      (List.Sublist.refl _)
  refine ⟨rfl, rfl, rfl, rfl, rfl, hbase, hpp, rfl, rfl, ?_, ?_⟩
  · rw [hbase]; exact hnd.sublist hsub
  · rw [hpp]; exact hnd

theorem hT_wR : hT 1 wRpp.toRandomness = [10, 10] := by
  have h1 : numT 1 wRpp.toRandomness = [7, 7] := by decide
  have h2 : denT 1 wRpp.toRandomness = [4, 4] := by decide
  have h3 : (7 : ZMod 11) / 4 = 10 := by
    rw [div_eq_iff (by decide : (4 : ZMod 11) ≠ 0)]
    decide
  rw [hT, h1, h2]
  show [(7 : ZMod 11) / 4, 7 / 4] = [10, 10]
  rw [h3]

theorem wiringPolys_wR :
    wiringPolys 1 wR = [[10, 10], [7, 7], [4, 4], [10, 1], [10, 0], [1, 0]] := by
  simp only [wR, wiringPolys, vx0T, vx1T, v1xT, hT_wR]
  decide

theorem wR_tables_nodup :
    (gatePolys wR ++ [wRpp.s] ++ wiringPolys 1 wR).Nodup := by
  rw [wiringPolys_wR]
  decide

/-- C1 witness: at the concrete input `wRpp` the sixteen committed tables are
pairwise distinct, and neither variant commits a polynomial twice. -/
theorem c1_witness :
    (gatePolys wRpp.toRandomness ++ [wRpp.s] ++ wiringPolys 1 wRpp.toRandomness).Nodup
  ∧ (committedTables (traceOfPP 1 wRpp)).Nodup :=
  ⟨wR_tables_nodup,
   (c1_commit_open_counts 1 wRpp wR_tables_nodup).2.2.2.2.2.2.2.2.2.2⟩

/-- C2: in both variants the gate-identity argument produces exactly six
sum-check-product proofs in the fixed order `(eq, q1)`, `(q1, a+b)`,
`(eq, q2)`, `(a, b)`, `(q2, a)`, `(eq, I-c)`, each instance run over the same
`n`-length challenge point. -/
theorem c2_gate_instances (n : ℕ) (rp : RandomnessPP F)
    (hch : rp.challenge.length = n) :
    (bundleOf n rp.toRandomness).gateProofs =
      [sumcheck_product rp.eq rp.q1 rp.challenge,
       sumcheck_product rp.q1 (sum_ab rp.toRandomness) rp.challenge,
       sumcheck_product rp.eq rp.q2 rp.challenge,
       sumcheck_product (aT rp.toRandomness) (bT rp.toRandomness) rp.challenge,
       sumcheck_product rp.q2 (aT rp.toRandomness) rp.challenge,
       sumcheck_product rp.eq (sum_ci rp.toRandomness) rp.challenge]
  ∧ (bundleOfPP n rp).gateProofs = (bundleOf n rp.toRandomness).gateProofs
  ∧ sum_ci rp.toRandomness =
      List.zipWith (fun c i => i - c) (cT rp.toRandomness) rp.input
  ∧ ∀ pr ∈ (bundleOf n rp.toRandomness).gateProofs,
      pr.chal = rp.challenge ∧ pr.chal.length = n := by
  refine ⟨rfl, rfl, ?_, ?_⟩
  · simp only [sum_ci]
    congr 1
    funext c i
    ring
  · intro pr hpr
    simp only [bundleOf, gateProofList, sumcheck_product, List.mem_cons,
      List.not_mem_nil, or_false] at hpr
    rcases hpr with rfl | rfl | rfl | rfl | rfl | rfl <;> exact ⟨rfl, hch⟩

/-- C2 witness: the gate-instance contract evaluated at the concrete input
`wRpp`, `n = 1`. -/
theorem c2_witness :
    wRpp.challenge.length = 1
  ∧ (bundleOfPP 1 wRpp).gateProofs = (bundleOf 1 wRpp.toRandomness).gateProofs :=
  ⟨by decide, (c2_gate_instances 1 wRpp (by decide)).2.1⟩

/-- C4: in both variants the wiring argument emits exactly six sum-check
instances over the fixed challenge point, in the order `(eq, v1x)`,
`(eq, vx0)`, `(vx0, vx1)`, `(eq, den)`, `(eq, num)`, `(h, num)`, and the
commit-and-open sequence for the `n`-variable wiring polynomials is, in order,
`h, num, den, vx0, vx1, v1x`, identically ordered in the commitment list and
the opening list (in the plus variant these follow the `s`/`M` entries). -/
theorem c4_wiring_order (n : ℕ) (rp : RandomnessPP F) :
    (bundleOf n rp.toRandomness).wiringProofs =
      [sumcheck_product rp.eq (v1xT n rp.toRandomness) rp.challenge,
       sumcheck_product rp.eq (vx0T n rp.toRandomness) rp.challenge,
       sumcheck_product (vx0T n rp.toRandomness) (vx1T n rp.toRandomness) rp.challenge,
       sumcheck_product rp.eq (denT n rp.toRandomness) rp.challenge,
       sumcheck_product rp.eq (numT n rp.toRandomness) rp.challenge,
       sumcheck_product (hT n rp.toRandomness) (numT n rp.toRandomness) rp.challenge]
  ∧ (bundleOf n rp.toRandomness).wiringCommits =
      [⟨hT n rp.toRandomness⟩, ⟨numT n rp.toRandomness⟩, ⟨denT n rp.toRandomness⟩,
       ⟨vx0T n rp.toRandomness⟩, ⟨vx1T n rp.toRandomness⟩, ⟨v1xT n rp.toRandomness⟩]
  ∧ (bundleOf n rp.toRandomness).wiringOpens =
      [⟨hT n rp.toRandomness, rp.challenge⟩, ⟨numT n rp.toRandomness, rp.challenge⟩,
       ⟨denT n rp.toRandomness, rp.challenge⟩, ⟨vx0T n rp.toRandomness, rp.challenge⟩,
       ⟨vx1T n rp.toRandomness, rp.challenge⟩, ⟨v1xT n rp.toRandomness, rp.challenge⟩]
  ∧ (bundleOf n rp.toRandomness).wiringOpens =
      ((bundleOf n rp.toRandomness).wiringCommits.map
        fun c => (⟨c.table, rp.challenge⟩ : Opening F))
  ∧ (bundleOfPP n rp).wiringProofs.drop 1 = (bundleOf n rp.toRandomness).wiringProofs
  ∧ (bundleOfPP n rp).wiringCommits.drop 1 = (bundleOf n rp.toRandomness).wiringCommits
  ∧ (bundleOfPP n rp).wiringOpens.drop 3 = (bundleOf n rp.toRandomness).wiringOpens :=
  ⟨rfl, rfl, rfl, rfl, rfl, rfl, rfl⟩

/-- C10: for every `n`, the plus variant returns a gate-identity proof list of
length 6, a gate-identity commitment+opening list of length 9, a wiring proof
list of length 7 headed by the `(M, s)` proof, a wiring commitment list of
length 7 headed by the commitment to `s`, and a wiring opening list of length
9 whose first three elements open `s` at the `(n+2)`-length sum-check
challenge and `M` at the two `(n+2)`-length challenges, followed by the six
baseline wiring opens. -/
theorem c10_pp_bundle_shape (n : ℕ) (rp : RandomnessPP F)
    (hp2 : rp.challengep2.length = n + 2) (hp2x : rp.challengep2_2.length = n + 2) :
    (bundleOfPP n rp).gateProofs.length = 6
  ∧ (bundleOfPP n rp).gateCommitments.length = 9
  ∧ (bundleOfPP n rp).wiringProofs.length = 7
  ∧ (bundleOfPP n rp).wiringProofs.head? =
      some (sumcheck_product rp.m rp.s rp.challengep2)
  ∧ (bundleOfPP n rp).wiringCommits.length = 7
  ∧ (bundleOfPP n rp).wiringCommits.head? = some ⟨rp.s⟩
  ∧ (bundleOfPP n rp).wiringOpens.length = 9
  ∧ (bundleOfPP n rp).wiringOpens.take 3 =
      [⟨rp.s, rp.challengep2⟩, ⟨rp.m, rp.challengep2⟩, ⟨rp.m, rp.challengep2_2⟩]
  ∧ (bundleOfPP n rp).wiringOpens.drop 3 = (bundleOf n rp.toRandomness).wiringOpens
  ∧ ∀ o ∈ (bundleOfPP n rp).wiringOpens.take 3, o.point.length = n + 2 := by
  refine ⟨rfl, rfl, rfl, rfl, rfl, rfl, rfl, rfl, rfl, ?_⟩
  intro o ho
  simp only [bundleOfPP, List.take_append, List.mem_cons, List.not_mem_nil,
    or_false, List.take] at ho
  rcases ho with rfl | rfl | rfl
  · exact hp2
  · exact hp2
  · exact hp2x

/-- C10 witness: the plus-variant bundle shape evaluated at the concrete
input `wRpp`, `n = 1`. -/
theorem c10_witness :
    wRpp.challengep2.length = 1 + 2
  ∧ (bundleOfPP 1 wRpp).wiringOpens.take 3 =
      [⟨wRpp.s, wRpp.challengep2⟩, ⟨wRpp.m, wRpp.challengep2⟩,
       ⟨wRpp.m, wRpp.challengep2_2⟩] :=
  ⟨by decide, (c10_pp_bundle_shape 1 wRpp (by decide) (by decide)).2.2.2.2.2.2.2.1⟩


/-- C5 (amended): the plus variant differs from the baseline exactly by the
extra `s` block: it takes one additional `(n+2)`-variable table `s` of length
`4 * 2 ^ n`, commits it, runs exactly one extra sum-check instance `(M, s)` at
a distinct `(n+2)`-length challenge (distinct from the `n`-length baseline
challenge), and opens `s` once at that sum-check challenge and `M` twice, at
the sum-check challenge and at one independent `(n+2)`-length challenge —
three opens total for this pair; no other structural difference exists
between the two variants' outputs or call traces. -/
theorem c5_plus_structural_diff (n : ℕ) (rp : RandomnessPP F)
    (hs : rp.s.length = 4 * 2 ^ n) (hp2 : rp.challengep2.length = n + 2)
    (hp2x : rp.challengep2_2.length = n + 2) (hch : rp.challenge.length = n) :
    (bundleOfPP n rp).gateProofs = (bundleOf n rp.toRandomness).gateProofs
  ∧ (bundleOfPP n rp).gateCommitments = (bundleOf n rp.toRandomness).gateCommitments
  ∧ (bundleOfPP n rp).wiringProofs =
      sumcheck_product rp.m rp.s rp.challengep2
        :: (bundleOf n rp.toRandomness).wiringProofs
  ∧ (bundleOfPP n rp).wiringCommits =
      ⟨rp.s⟩ :: (bundleOf n rp.toRandomness).wiringCommits
  ∧ (bundleOfPP n rp).wiringOpens =
      [⟨rp.s, rp.challengep2⟩, ⟨rp.m, rp.challengep2⟩, ⟨rp.m, rp.challengep2_2⟩]
        ++ (bundleOf n rp.toRandomness).wiringOpens
  ∧ traceOfPP n rp =
      gateCommitEvents rp.toRandomness ++ scEvents (gateProofList n rp.toRandomness)
        ++ sBlock rp ++ wiringCoEvents n rp.toRandomness
        ++ scEvents (wiringProofList n rp.toRandomness) ++ gateOpenEvents rp.toRandomness
  ∧ traceOf n rp.toRandomness =
      gateCommitEvents rp.toRandomness ++ scEvents (gateProofList n rp.toRandomness)
        ++ wiringCoEvents n rp.toRandomness
        ++ scEvents (wiringProofList n rp.toRandomness) ++ gateOpenEvents rp.toRandomness
  ∧ rp.s.length = 4 * 2 ^ n
  ∧ rp.challengep2_2.length = n + 2
  ∧ rp.challengep2 ≠ rp.challenge := by
  refine ⟨rfl, rfl, rfl, rfl, rfl, rfl, rfl, hs, hp2x, ?_⟩
  intro hc
  have hlen := congrArg List.length hc
  rw [hp2, hch] at hlen
  omega

/-- C5 counterexample: the claim states that `s` is opened at two different
`(n+2)`-length challenge points, but at the concrete input `wRpp` the plus
variant opens the auxiliary table `s` at exactly one point, the sum-check
challenge `challengep2` (while the two available `(n+2)`-length challenges
are indeed different). -/
theorem c5_counterexample :
    openPointsOf wRpp.s (traceOfPP 1 wRpp) = [wRpp.challengep2]
  ∧ wRpp.challengep2 ≠ wRpp.challengep2_2 := by
  constructor
  · simp only [traceOfPP, wiringCoEvents, wiringProofList, vx0T, vx1T, v1xT, hT_wR]
    decide
  · decide

/-- C5 witness: the amended structural-difference statement evaluated at the
concrete input `wRpp`, `n = 1`. -/
theorem c5_witness :
    wRpp.s.length = 4 * 2 ^ 1
  ∧ (bundleOfPP 1 wRpp).wiringCommits =
      ⟨wRpp.s⟩ :: (bundleOf 1 wRpp.toRandomness).wiringCommits
  ∧ wRpp.challengep2 ≠ wRpp.challenge :=
  ⟨by decide,
   (c5_plus_structural_diff 1 wRpp (by decide) (by decide) (by decide)
      (by decide)).2.2.2.1,
   (c5_plus_structural_diff 1 wRpp (by decide) (by decide) (by decide)
      (by decide)).2.2.2.2.2.2.2.2.2⟩

/-- C9 (amended): within each component every opening is performed at that
component's designated challenge point(s), and the gate-identity openings do
occur after all sum-check instances; however the wiring openings of
`h, num, den, vx0, vx1, v1x` occur interleaved with their commitments
immediately BEFORE the six wiring sum-check instances, not after them as the
claim states.  The trace decomposition and the open-event lists below record
this order for both variants. -/
theorem c9_phase_order (n : ℕ) (rp : RandomnessPP F) :
    traceOf n rp.toRandomness =
      gateCommitEvents rp.toRandomness ++ scEvents (gateProofList n rp.toRandomness)
        ++ wiringCoEvents n rp.toRandomness
        ++ scEvents (wiringProofList n rp.toRandomness)
        ++ gateOpenEvents rp.toRandomness
  ∧ openEvents (traceOf n rp.toRandomness) =
      ((wiringPolys n rp.toRandomness ++ gatePolys rp.toRandomness).map
        fun t => (t, rp.challenge))
  ∧ committedTables (wiringCoEvents n rp.toRandomness) = wiringPolys n rp.toRandomness
  ∧ openEvents (wiringCoEvents n rp.toRandomness) =
      ((wiringPolys n rp.toRandomness).map fun t => (t, rp.challenge))
  ∧ openEvents (traceOfPP n rp) =
      [(rp.s, rp.challengep2), (rp.m, rp.challengep2), (rp.m, rp.challengep2_2)]
        ++ ((wiringPolys n rp.toRandomness ++ gatePolys rp.toRandomness).map
          fun t => (t, rp.challenge)) :=
  ⟨rfl, rfl, rfl, rfl, rfl⟩

/-- C9 counterexample: at the concrete input `wR` the baseline trace opens the
wiring polynomial `h` at position 16, strictly before the first wiring
sum-check instance `(eq, v1x)` at position 27, and no opening of `h` occurs
anywhere after position 16 — so the wiring openings do not occur after the six
wiring sum-check instances as the claim states. -/
theorem c9_counterexample :
    (traceOf 1 wR).getD 16 (Event.commit []) = Event.openAt (hT 1 wR) wR.challenge
  ∧ (traceOf 1 wR).getD 27 (Event.commit []) =
      Event.sumcheck wR.eq (v1xT 1 wR) wR.challenge
  ∧ ((traceOf 1 wR).drop 17).countP
      (fun e => decide (e = Event.openAt (hT 1 wR) wR.challenge)) = 0 := by
  refine ⟨rfl, rfl, ?_⟩
  simp only [traceOf, wR, gateCommitEvents, gateOpenEvents, scEvents,
    gateProofList, wiringProofList, wiringCoEvents, sumcheck_product,
    vx0T, vx1T, v1xT, hT_wR]
  decide

end HyperPlonk
